import Mathlib

/-!
Verification of the attribute-mapping core of the VOpaas proxy
(`src/satosa/attribute_mapping.py`).

The Python module is shallowly embedded below.  Python values that can
occur inside attribute records (strings, lists, nested dicts, `None`)
are modelled by the inductive type `PyValue`; Python dicts are modelled
by association lists with Python-dict insertion semantics (updating an
existing key keeps its position, a new key is appended; keys are
unique).  Python strings are modelled as `List Char`.  Exceptions are
modelled with `Except PyError`.  Mako template rendering is an external
library call; it is abstracted as a `RenderOracle` argument (the
rendering outcome for a template against a data dict), and the code
around the `render` call is embedded faithfully.
-/

namespace AttributeMapping

/-- Python strings (used both as dict keys and as attribute values). -/
abbrev Key := List Char

/-- The Python exception kinds that the embedded code can raise or catch. -/
inductive PyError where
  | nameError
  | typeError
  | valueError
  | attributeError
  | indexError
  deriving DecidableEq, Repr

/-- A Python value as it can occur inside an attribute record:
a string, a list of values, a (nested) dict, or `None`. -/
inductive PyValue where
  | str : Key → PyValue
  | list : List PyValue → PyValue
  | dict : List (Key × PyValue) → PyValue
  | none : PyValue
  deriving Repr

/-- Python truthiness for the values above: empty string/list/dict and
`None` are falsy, everything else is truthy. -/
def pytruthy : PyValue → Bool
  | .str s => !s.isEmpty
  | .list vs => !vs.isEmpty
  | .dict es => !es.isEmpty
  | .none => false

/-- First-match lookup in an association list (Python dict lookup;
dicts built by the embedded code never carry duplicate keys). -/
def alookup {α : Type} : List (Key × α) → Key → Option α
  | [], _ => Option.none
  | (k', v) :: es, k => if k' = k then some v else alookup es k

/-- Python `d.get(key)` on a dict value: `None` when the key is absent. -/
def dictGet : List (Key × PyValue) → Key → PyValue
  | [], _ => PyValue.none
  | (k', v) :: es, k => if k' = k then v else dictGet es k

/-- Python `d[key] = v` on a dict: updating an existing key keeps its
position, a new key is appended (insertion order). -/
def dictInsert {α : Type} : List (Key × α) → Key → α → List (Key × α)
  | [], k, v => [(k, v)]
  | (k', v') :: es, k, v => if k' = k then (k, v) :: es else (k', v') :: dictInsert es k v

/-- Python `s.split(sep)` for a one-character separator: splits on every
occurrence, keeping empty pieces; the empty string splits to `[""]`. -/
def pysplit (sep : Char) : List Char → List (List Char)
  | [] => [[]]
  | c :: cs =>
    if c = sep then [] :: pysplit sep cs
    else
      match pysplit sep cs with
      | [] => [[c]]
      | p :: ps => (c :: p) :: ps

/-- Python `s.partition(sep)` for a one-character separator: splits at the
first occurrence into (before, separator, after); when the separator is
absent the result is (s, "", ""). -/
def pypartition (sep : Char) : List Char → List Char × List Char × List Char
  | [] => ([], [], [])
  | c :: cs =>
    if c = sep then ([], [sep], cs)
    else
      let r := pypartition sep cs
      (c :: r.1, r.2.1, r.2.2)

/-- Python function `scope` (module-level Mako filter): raises `ValueError` when the string
contains no `@`, otherwise returns the part after the first `@`
(`s.partition("@")`'s third component). -/
def scope (s : Key) : Except PyError Key :=
  if '@' ∉ s then .error .valueError
  else .ok (pypartition '@' s).2.2

/-- An external attribute record (`Mapping[str, Any]`): keys to values,
where a value may itself be a nested dict. -/
abbrev EDict := List (Key × PyValue)

/-- An internal attribute record (`dict[str, list[str]]` in the
annotations; the values actually collected are arbitrary Python
values). -/
abbrev IDict := List (Key × List PyValue)

/-- The configuration handed to `AttributeMapper.__init__`:
`attributes` maps internal name -> profile -> ordered external names;
`template_attributes` has the same shape and is `None` when absent. -/
structure Config where
  attributes : List (Key × List (Key × List Key))
  template_attributes : Option (List (Key × List (Key × List Key)))

/-- The loop of `_get_nested_attribute_value`: `d = d.get(key)` for each
segment, returning `None` as soon as the lookup yields `None`.  Calling
`.get` on a value that is not a mapping (and not already returned as
`None`) raises `AttributeError`. -/
def getNestedLoop : List Key → PyValue → Except PyError (Option PyValue)
  | [], d => .ok (some d)
  | k :: ks, d =>
    match d with
    | .dict es =>
      match dictGet es k with
      | .none => .ok Option.none
      | v => getNestedLoop ks v
    | _ => .error .attributeError

/-- Method `AttributeMapper._get_nested_attribute_value`: split the key on the
separator `.` and traverse the record. -/
def get_nested_attribute_value (nested_key : Key) (data : EDict) : Except PyError (Option PyValue) :=
  getNestedLoop (pysplit '.' nested_key) (.dict data)

/-- Method `AttributeMapper._collate_attribute_values_by_priority_order`: for
each candidate name resolve its value; a list is spread with `extend`, a
truthy scalar is appended (`elif attr_val:`), anything else contributes
nothing. -/
def collate_attribute_values_by_priority_order : List Key → EDict → Except PyError (List PyValue)
  | [], _ => .ok []
  | n :: ns, data =>
    match get_nested_attribute_value n data with
    | .error e => .error e
    | .ok r =>
      let vs : List PyValue :=
        match r with
        | some (.list xs) => xs
        | some v => if pytruthy v then [v] else []
        | Option.none => []
      match collate_attribute_values_by_priority_order ns data with
      | .error e => .error e
      | .ok rest => .ok (vs ++ rest)

/-- The outcome of rendering a Mako template against a data dict: a
value (a string when rendering went well) or a raised exception.  Mako
is an external library, so the rendering itself is a parameter. -/
abbrev RenderOracle := Key → IDict → Except PyError PyValue

/-- Method `AttributeMapper._render_attribute_template`: render the template;
a raised `NameError` or `TypeError` is caught and yields `[]`; a
non-string result raises `TypeError` (caught by the same handler); a
string is split on the multivalue separator `;`.  Any other exception
(such as `ValueError` from `scope`) propagates. -/
def render_attribute_template (render : RenderOracle) (template : Key) (data : IDict) :
    Except PyError (List PyValue) :=
  match render template data with
  | .error .nameError => .ok []
  | .error .typeError => .ok []
  | .error e => .error e
  | .ok (.str s) => .ok ((pysplit ';' s).map PyValue.str)
  | .ok _ => .ok []

/-- The loop of `AttributeMapper._handle_template_attributes` over the
`template_attributes` entries: entries with no mapping for the profile
are skipped; of the mapped names only those containing `$` are treated
as templates; each is rendered against the current internal dict; the
flattened output, or the existing value when the output is empty, is
written back when truthy. -/
def handleTemplatesLoop (render : RenderOracle) (attribute_profile : Key) :
    List (Key × List (Key × List Key)) → IDict → Except PyError IDict
  | [], internal_dict => .ok internal_dict
  | (internal_attribute_name, mapping) :: rest, internal_dict =>
    match alookup mapping attribute_profile with
    | Option.none => handleTemplatesLoop render attribute_profile rest internal_dict
    | some external_attribute_name =>
      let templates := external_attribute_name.filter (fun t => '$' ∈ t)
      match templates.mapM (fun t => render_attribute_template render t internal_dict) with
      | .error e => .error e
      | .ok template_attribute_values =>
        let flattened_attribute_values := template_attribute_values.flatten
        let attribute_values : Option (List PyValue) :=
          if flattened_attribute_values.isEmpty then alookup internal_dict internal_attribute_name
          else some flattened_attribute_values
        let internal_dict' :=
          match attribute_values with
          | some vs =>
            if vs.isEmpty then internal_dict
            else dictInsert internal_dict internal_attribute_name vs
          | Option.none => internal_dict
        handleTemplatesLoop render attribute_profile rest internal_dict'

/-- Method `AttributeMapper._handle_template_attributes`: nothing happens when
`template_attributes` is `None` (or empty, which the loop handles
identically). -/
def handle_template_attributes (render : RenderOracle) (cfg : Config)
    (attribute_profile : Key) (internal_dict : IDict) : Except PyError IDict :=
  match cfg.template_attributes with
  | Option.none => .ok internal_dict
  | some tmpl => handleTemplatesLoop render attribute_profile tmpl internal_dict

/-- The primary loop of `AttributeMapper.to_internal` over the configured
`attributes` entries: entries with no mapping for the profile are
skipped; otherwise the candidate names are collated against the external
record and the key is written only when the collation is non-empty. -/
def toInternalLoop (attribute_profile : Key) (external_dict : EDict) :
    List (Key × List (Key × List Key)) → IDict → Except PyError IDict
  | [], internal_dict => .ok internal_dict
  | (internal_attribute_name, mapping) :: rest, internal_dict =>
    match alookup mapping attribute_profile with
    | Option.none => toInternalLoop attribute_profile external_dict rest internal_dict
    | some external_attribute_name =>
      match collate_attribute_values_by_priority_order external_attribute_name external_dict with
      | .error e => .error e
      | .ok attribute_values =>
        toInternalLoop attribute_profile external_dict rest
          (if attribute_values.isEmpty then internal_dict
           else dictInsert internal_dict internal_attribute_name attribute_values)

/-- Method `AttributeMapper.to_internal`: the primary mapping pass followed by
the template pass. -/
def to_internal (render : RenderOracle) (cfg : Config) (attribute_profile : Key)
    (external_dict : EDict) : Except PyError IDict :=
  match toInternalLoop attribute_profile external_dict cfg.attributes [] with
  | .error e => .error e
  | .ok internal_dict => handle_template_attributes render cfg attribute_profile internal_dict

/-- Method `AttributeMapper._create_nested_attribute_value`: wrap the value in
one dict layer per name, innermost name last.  (Callers always pass at
least one name; the `[]` case is unreachable.) -/
def create_nested_attribute_value : List Key → PyValue → PyValue
  | [], _ => .dict []
  | [n], value => .dict [(n, value)]
  | n :: rest, value => .dict [(n, create_nested_attribute_value rest value)]

/-- The loop of `AttributeMapper.from_internal` over the input internal
record: look the internal name up in the configuration (skip when absent
or when the profile is unmapped), take the first external name
(`IndexError` when the configured list is empty), and write the value
directly or under a nested structure when the name is dotted. -/
def fromInternalLoop (cfg : Config) (attribute_profile : Key) :
    List (Key × List PyValue) → EDict → Except PyError EDict
  | [], external_dict => .ok external_dict
  | (internal_attribute_name, values) :: rest, external_dict =>
    match alookup cfg.attributes internal_attribute_name with
    | Option.none => fromInternalLoop cfg attribute_profile rest external_dict
    | some attribute_mapping =>
      match alookup attribute_mapping attribute_profile with
      | Option.none => fromInternalLoop cfg attribute_profile rest external_dict
      | some external_attribute_names =>
        match external_attribute_names with
        | [] => .error .indexError
        | external_attribute_name :: _ =>
          if '.' ∈ external_attribute_name then
            match pysplit '.' external_attribute_name with
            | [] => fromInternalLoop cfg attribute_profile rest external_dict
            | top :: nested_rest =>
              let nested_dict := create_nested_attribute_value nested_rest (.list values)
              fromInternalLoop cfg attribute_profile rest (dictInsert external_dict top nested_dict)
          else
            fromInternalLoop cfg attribute_profile rest
              (dictInsert external_dict external_attribute_name (.list values))

/-- Method `AttributeMapper.from_internal`: translate an internal record to the
external shape for the given profile.  (`pysplit` never returns `[]`, so
the corresponding inner branch of the loop is unreachable.) -/
def from_internal (cfg : Config) (attribute_profile : Key) (internal_dict : IDict) :
    Except PyError EDict :=
  fromInternalLoop cfg attribute_profile internal_dict []

/-- One `table[profile][external] = internal` write into the inverse
table, with `defaultdict(dict)` semantics for a missing profile. -/
def tableSet (t : List (Key × List (Key × Key))) (profile external internal : Key) :
    List (Key × List (Key × Key)) :=
  match alookup t profile with
  | Option.none => dictInsert t profile (dictInsert [] external internal)
  | some pm => dictInsert t profile (dictInsert pm external internal)

/-- The inverse-table construction of `AttributeMapper.__init__`: for
every internal attribute, every profile it declares and every external
name listed, write `to_internal_attributes[profile][external] =
internal` (later writes overwrite earlier ones). -/
def buildToInternal (attrs : List (Key × List (Key × List Key))) : List (Key × List (Key × Key)) :=
  attrs.foldl
    (fun t entry =>
      entry.2.foldl
        (fun t pentry => pentry.2.foldl (fun t ext => tableSet t pentry.1 ext entry.1) t)
        t)
    []

/-- The accumulation loop of `AttributeMapper.to_internal_filter`: a set
of internal names, modelled as a duplicate-free list in first-insertion
order (the source materialises a Python `set`, whose iteration order is
unspecified). -/
def toInternalFilterLoop (profile_mapping : List (Key × Key)) :
    List Key → List Key → List Key
  | [], acc => acc
  | e :: es, acc =>
    match alookup profile_mapping e with
    | some n => toInternalFilterLoop profile_mapping es (if n ∈ acc then acc else acc ++ [n])
    | Option.none => toInternalFilterLoop profile_mapping es acc

/-- Method `AttributeMapper.to_internal_filter`.  `to_internal_attributes` is a
`defaultdict(dict)`, so indexing a missing profile never raises the
`KeyError` the source guards against: it inserts an empty sub-dict for
that profile and the loop then resolves nothing.  The (possibly grown)
table is returned alongside the result. -/
def to_internal_filter (tables : List (Key × List (Key × Key))) (attribute_profile : Key)
    (external_attribute_names : List Key) : List Key × List (Key × List (Key × Key)) :=
  match alookup tables attribute_profile with
  | some profile_mapping =>
    (toInternalFilterLoop profile_mapping external_attribute_names [], tables)
  | Option.none => ([], dictInsert tables attribute_profile [])

/-- Resolution of one external name through the inverse lookup table:
the entry `to_internal[profile][external]`, when both levels exist. -/
def resolveExternal (tables : List (Key × List (Key × Key))) (profile external : Key) : Option Key :=
  match alookup tables profile with
  | some pm => alookup pm external
  | Option.none => Option.none

/-- Spec-side description of a traversal in which every step lands on a
mapping: the path is exhausted, or the current value is a mapping whose
lookup of the next segment is either absent (`None`) or a value the
traversal may continue into. -/
inductive MapsAlong : List Key → PyValue → Prop
  | nil (v : PyValue) : MapsAlong [] v
  | absent (k : Key) (ks : List Key) (es : List (Key × PyValue)) :
      dictGet es k = PyValue.none → MapsAlong (k :: ks) (.dict es)
  | step (k : Key) (ks : List Key) (es : List (Key × PyValue)) :
      dictGet es k ≠ PyValue.none → MapsAlong ks (dictGet es k) →
      MapsAlong (k :: ks) (.dict es)

/-- Spec-side: the substring after the first occurrence of a character. -/
def afterFirst (c : Char) (s : List Char) : List Char :=
  (s.dropWhile (· ≠ c)).tail

/-- Spec-side: the contribution of one candidate name to the collation,
per the collation description — a resolved list is spread in place, a
resolved truthy scalar is appended as one element, a falsy scalar or a
missing value contributes nothing. -/
def contributionOf (data : EDict) (n : Key) : List PyValue :=
  match get_nested_attribute_value n data with
  | .ok (some (.list xs)) => xs
  | .ok (some v) => if pytruthy v then [v] else []
  | _ => []

/-! Concrete keys, configurations and rendering outcomes used by the
witnesses and counterexamples below. -/

def kA : Key := "a".toList

def kB : Key := "b".toList

def kP : Key := "p".toList

def kX : Key := "x".toList

def kY : Key := "y".toList

def kV : Key := "v".toList

def kAB : Key := "a.b".toList

def kStreet : Key := "street".toList

def kAddress : Key := "address".toList

def kStreetAddress : Key := "street_address".toList

def kAddressStreet : Key := "address.street_address".toList

def kMainSt : Key := "Main St".toList

/-- A template expression invoking the `scope` filter (it contains the
template marker `$`). -/
def kScopeTemplate : Key := "${mail | scope}".toList

/-- Rendering outcome of a template whose `scope` invocation was applied
to a string without `@`: `scope` raises `ValueError` and Mako propagates
it out of `render`. -/
def renderScopeFailure : RenderOracle := fun _ _ => .error .valueError

/-- Rendering outcome of a template referencing an undefined variable:
`render` raises `NameError`. -/
def renderUndefined : RenderOracle := fun _ _ => .error .nameError

/-- Rendering outcome producing the fixed string "z". -/
def renderConstZ : RenderOracle := fun _ _ => .ok (.str ['z'])

/-- A configuration whose only template attribute is a scope-extracting
template for internal attribute `a` under profile `p`. -/
def cfgScopeTemplate : Config := ⟨[], some [(kA, [(kP, [kScopeTemplate])])]⟩

/-- The nested-path configuration of the spec's round-trip example:
internal `street` maps to external `address.street_address`. -/
def cfgNested (p : Key) : Config := ⟨[(kStreet, [(p, [kAddressStreet])])], Option.none⟩

/-- A configuration in which two internal attributes `b` and `a` both
list the external name `x` for profile `p`; the inverse table maps
`x` back to `a` (last writer). -/
def cfgShared : Config :=
  ⟨[(kB, [(kP, [kX])]), (kA, [(kP, [kX])])], Option.none⟩

/-- An aligned single-attribute configuration: internal `a` maps to
external `x` for profile `p`, no templates. -/
def cfgAligned : Config := ⟨[(kA, [(kP, [kX])])], Option.none⟩

/-- A two-candidate configuration: internal `a` maps to `[x, y]` for
profile `p`, no templates. -/
def cfgPriority : Config := ⟨[(kA, [(kP, [kX, kY])])], Option.none⟩

/-! Helper lemmas about the dictionary operations. -/

theorem alookup_dictInsert_self {α : Type} (l : List (Key × α)) (k : Key) (v : α) :
    alookup (dictInsert l k v) k = some v := by
  induction l with
  | nil => simp [dictInsert, alookup]
  | cons pr rest ih =>
    obtain ⟨k', v'⟩ := pr
    by_cases h : k' = k
    · simp [dictInsert, h, alookup]
    · simp [dictInsert, h, alookup, ih]

theorem alookup_dictInsert_ne {α : Type} (l : List (Key × α)) (k k' : Key) (v : α)
    (h : k' ≠ k) : alookup (dictInsert l k' v) k = alookup l k := by
  induction l with
  | nil => simp [dictInsert, alookup, h]
  | cons pr rest ih =>
    obtain ⟨k'', v''⟩ := pr
    by_cases h2 : k'' = k'
    · simp [dictInsert, h2, alookup, h]
    · simp only [dictInsert, if_neg h2, alookup]
      by_cases h3 : k'' = k
      · simp [h3]
      · simp [h3, ih]

theorem dictInsert_self_eq {α : Type} (l : List (Key × α)) (k : Key) (v : α)
    (h : alookup l k = some v) : dictInsert l k v = l := by
  induction l with
  | nil => simp [alookup] at h
  | cons pr rest ih =>
    obtain ⟨k', v'⟩ := pr
    by_cases h2 : k' = k
    · simp only [alookup, if_pos h2] at h
      obtain rfl := Option.some.inj h
      simp [dictInsert, h2]
    · simp only [alookup, if_neg h2] at h
      simp [dictInsert, h2, ih h]

theorem alookup_decomp {α : Type} {l : List (Key × α)} {k : Key} {v : α}
    (h : alookup l k = some v) :
    ∃ l1 l2, l = l1 ++ (k, v) :: l2 ∧ ∀ p ∈ l1, p.1 ≠ k := by
  induction l with
  | nil => simp [alookup] at h
  | cons pr rest ih =>
    obtain ⟨k', v'⟩ := pr
    by_cases h2 : k' = k
    · simp only [alookup, if_pos h2] at h
      obtain rfl := Option.some.inj h
      exact ⟨[], rest, by simp [h2], by simp⟩
    · simp only [alookup, if_neg h2] at h
      obtain ⟨l1, l2, hsplit, hne⟩ := ih h
      refine ⟨(k', v') :: l1, l2, by simp [hsplit], ?_⟩
      intro p hp
      rcases List.mem_cons.mp hp with rfl | hp
      · exact h2
      · exact hne p hp

theorem nodup_keys_right {α : Type} (l1 l2 : List (Key × α)) (A : Key) (m : α)
    (h : ((l1 ++ (A, m) :: l2).map Prod.fst).Nodup) : ∀ pr ∈ l2, pr.1 ≠ A := by
  intro pr hpr hEq
  rw [List.map_append] at h
  have h2 := (List.nodup_append.mp h).2.1
  rw [List.map_cons, List.nodup_cons] at h2
  have hmem : pr.1 ∈ List.map Prod.fst l2 := List.mem_map_of_mem Prod.fst hpr
  rw [hEq] at hmem
  exact h2.1 hmem

/-! Helper lemmas about splitting and partitioning. -/

theorem pysplit_ne_nil (sep : Char) (s : List Char) : pysplit sep s ≠ [] := by
  cases s with
  | nil => simp [pysplit]
  | cons c cs =>
    simp only [pysplit]
    split
    · simp
    · split <;> simp

theorem pysplit_no_sep (sep : Char) (s : List Char) (h : sep ∉ s) :
    pysplit sep s = [s] := by
  induction s with
  | nil => rfl
  | cons c cs ih =>
    simp only [List.mem_cons, not_or] at h
    have hc : ¬ c = sep := fun hc => h.1 hc.symm
    simp only [pysplit, if_neg hc]
    rw [ih h.2]

theorem pypartition_after (c : Char) (s : List Char) :
    (pypartition c s).2.2 = (s.dropWhile (· ≠ c)).tail := by
  induction s with
  | nil => rfl
  | cons a as ih =>
    by_cases h : a = c
    · subst h
      simp [pypartition, List.dropWhile_cons]
    · simp [pypartition, h, List.dropWhile_cons, ih]

/-! Helper lemmas about the primary mapping loop. -/

theorem toInternalLoop_append (p : Key) (ext : EDict)
    (l1 l2 : List (Key × List (Key × List Key))) (acc : IDict) :
    toInternalLoop p ext (l1 ++ l2) acc =
      match toInternalLoop p ext l1 acc with
      | .ok d => toInternalLoop p ext l2 d
      | .error e => .error e := by
  induction l1 generalizing acc with
  | nil => simp [toInternalLoop]
  | cons pr rest ih =>
    obtain ⟨name, m⟩ := pr
    cases h1 : alookup m p with
    | none =>
      simp only [List.cons_append, toInternalLoop, h1]
      exact ih acc
    | some names =>
      cases h2 : collate_attribute_values_by_priority_order names ext with
      | error e => simp [List.cons_append, toInternalLoop, h1, h2]
      | ok vs =>
        simp only [List.cons_append, toInternalLoop, h1, h2]
        exact ih _

theorem toInternalLoop_lookup_preserved (p : Key) (ext : EDict)
    (l : List (Key × List (Key × List Key))) (acc d : IDict) (k : Key)
    (hd : toInternalLoop p ext l acc = .ok d) (hk : ∀ pr ∈ l, pr.1 ≠ k) :
    alookup d k = alookup acc k := by
  induction l generalizing acc with
  | nil =>
    simp only [toInternalLoop] at hd
    obtain rfl := Except.ok.inj hd
    rfl
  | cons pr rest ih =>
    obtain ⟨name, m⟩ := pr
    have hname : name ≠ k := hk (name, m) (by simp)
    have hrest : ∀ pr ∈ rest, pr.1 ≠ k := fun pr hpr => hk pr (by simp [hpr])
    cases h1 : alookup m p with
    | none =>
      simp only [toInternalLoop, h1] at hd
      exact ih acc hd hrest
    | some names =>
      cases h2 : collate_attribute_values_by_priority_order names ext with
      | error e => simp [toInternalLoop, h1, h2] at hd
      | ok vs =>
        simp only [toInternalLoop, h1, h2] at hd
        by_cases h3 : vs.isEmpty
        · rw [if_pos h3] at hd
          exact ih acc hd hrest
        · rw [if_neg h3] at hd
          rw [ih _ hd hrest]
          exact alookup_dictInsert_ne acc k name vs hname

theorem toInternalLoop_skip (p : Key) (ext : EDict)
    (l : List (Key × List (Key × List Key))) (acc : IDict)
    (h : ∀ pr ∈ l, ∀ names, alookup pr.2 p = some names →
         collate_attribute_values_by_priority_order names ext = .ok []) :
    toInternalLoop p ext l acc = .ok acc := by
  induction l with
  | nil => rfl
  | cons pr rest ih =>
    obtain ⟨name, m⟩ := pr
    have hrest : ∀ pr ∈ rest, ∀ names, alookup pr.2 p = some names →
        collate_attribute_values_by_priority_order names ext = .ok [] :=
      fun pr hpr => h pr (by simp [hpr])
    cases h1 : alookup m p with
    | none =>
      simp only [toInternalLoop, h1]
      exact ih hrest
    | some names =>
      simp only [toInternalLoop, h1, h (name, m) (by simp) names h1]
      simpa using ih hrest

/-! Helper lemmas about the template-attribute loop. -/

theorem handleTemplatesLoop_append (render : RenderOracle) (p : Key)
    (l1 l2 : List (Key × List (Key × List Key))) (d : IDict) :
    handleTemplatesLoop render p (l1 ++ l2) d =
      match handleTemplatesLoop render p l1 d with
      | .ok d' => handleTemplatesLoop render p l2 d'
      | .error e => .error e := by
  induction l1 generalizing d with
  | nil => simp [handleTemplatesLoop]
  | cons pr rest ih =>
    obtain ⟨name, m⟩ := pr
    cases h1 : alookup m p with
    | none =>
      simp only [List.cons_append, handleTemplatesLoop, h1]
      exact ih d
    | some names =>
      cases h2 : (names.filter (fun t => '$' ∈ t)).mapM
          (fun t => render_attribute_template render t d) with
      | error e => simp only [List.cons_append, handleTemplatesLoop, h1, h2]
      | ok tss =>
        simp only [List.cons_append, handleTemplatesLoop, h1, h2]
        exact ih _

theorem handleTemplatesLoop_preserved (render : RenderOracle) (p : Key)
    (l : List (Key × List (Key × List Key))) (acc d : IDict) (k : Key)
    (hd : handleTemplatesLoop render p l acc = .ok d)
    (hk : ∀ pr ∈ l, pr.1 = k → alookup pr.2 p = Option.none) :
    alookup d k = alookup acc k := by
  induction l generalizing acc with
  | nil =>
    simp only [handleTemplatesLoop] at hd
    obtain rfl := Except.ok.inj hd
    rfl
  | cons pr rest ih =>
    obtain ⟨name, m⟩ := pr
    have hrest : ∀ pr ∈ rest, pr.1 = k → alookup pr.2 p = Option.none :=
      fun pr hpr => hk pr (by simp [hpr])
    cases h1 : alookup m p with
    | none =>
      simp only [handleTemplatesLoop, h1] at hd
      exact ih acc hd hrest
    | some names =>
      have hname : name ≠ k := by
        intro hEq
        rw [hk (name, m) (by simp) hEq] at h1
        exact Option.noConfusion h1
      cases h2 : (names.filter (fun t => '$' ∈ t)).mapM
          (fun t => render_attribute_template render t acc) with
      | error e =>
        simp only [handleTemplatesLoop, h1, h2] at hd
        exact Except.noConfusion hd
      | ok tss =>
        simp only [handleTemplatesLoop, h1, h2] at hd
        by_cases h3 : tss.flatten.isEmpty
        · rw [if_pos h3] at hd
          cases h4 : alookup acc name with
          | none =>
            rw [h4] at hd
            exact ih acc hd hrest
          | some vs =>
            rw [h4] at hd
            simp only at hd
            by_cases h5 : vs.isEmpty
            · rw [if_pos h5] at hd
              exact ih acc hd hrest
            · rw [if_neg h5] at hd
              rw [ih _ hd hrest]
              exact alookup_dictInsert_ne acc k name vs hname
        · rw [if_neg h3] at hd
          simp only at hd
          by_cases h5 : tss.flatten.isEmpty
          · exact absurd h5 h3
          · rw [if_neg h5] at hd
            rw [ih _ hd hrest]
            exact alookup_dictInsert_ne acc k name tss.flatten hname

theorem handleTemplatesLoop_skip (render : RenderOracle) (p : Key)
    (l : List (Key × List (Key × List Key))) (d : IDict)
    (h : ∀ pr ∈ l, alookup pr.2 p = Option.none) :
    handleTemplatesLoop render p l d = .ok d := by
  induction l with
  | nil => rfl
  | cons pr rest ih =>
    obtain ⟨name, m⟩ := pr
    simp only [handleTemplatesLoop, h (name, m) (by simp)]
    exact ih (fun pr hpr => h pr (by simp [hpr]))

theorem mapM_renders_nil (render : RenderOracle) (l : List Key) (d : IDict)
    (h : ∀ t ∈ l, render_attribute_template render t d = .ok []) :
    l.mapM (fun t => render_attribute_template render t d) =
      .ok (l.map fun _ => ([] : List PyValue)) := by
  induction l with
  | nil => rfl
  | cons t ts ih =>
    rw [List.mapM_cons, h t (by simp), ih (fun t ht => h t (by simp [ht]))]
    rfl

theorem flatten_map_nil {α β : Type} (l : List α) :
    (l.map fun _ => ([] : List β)).flatten = [] := by
  induction l with
  | nil => rfl
  | cons x xs ih => simp [ih]

theorem mapsAlong_safe (ks : List Key) (d : PyValue) (h : MapsAlong ks d) :
    ∃ r, getNestedLoop ks d = .ok r := by
  induction h with
  | nil v => exact ⟨some v, rfl⟩
  | absent k ks es habs => exact ⟨Option.none, by simp [getNestedLoop, habs]⟩
  | step k ks es hne _ ih =>
    obtain ⟨r, hr⟩ := ih
    refine ⟨r, ?_⟩
    simp only [getNestedLoop]
    cases hv : dictGet es k with
    | none => exact absurd hv hne
    | str s => rw [hv] at hr; exact hr
    | list vs => rw [hv] at hr; exact hr
    | dict es' => rw [hv] at hr; exact hr

theorem collate_single_key_miss (names : List Key) (X : Key) (w : PyValue)
    (h : ∀ n ∈ names, (pysplit '.' n).head? ≠ some X) :
    collate_attribute_values_by_priority_order names [(X, w)] = .ok [] := by
  induction names with
  | nil => rfl
  | cons n ns ih =>
    have hn := h n (by simp)
    obtain ⟨k0, ks, hsplit⟩ : ∃ k0 ks, pysplit '.' n = k0 :: ks := by
      cases hs : pysplit '.' n with
      | nil => exact absurd hs (pysplit_ne_nil '.' n)
      | cons a b => exact ⟨a, b, rfl⟩
    have hk0 : ¬ X = k0 := by
      rw [hsplit] at hn
      simp only [List.head?_cons] at hn
      exact fun hEq => hn (by rw [hEq])
    simp only [collate_attribute_values_by_priority_order, get_nested_attribute_value,
      hsplit, getNestedLoop, dictGet, if_neg hk0]
    rw [ih (fun n hn2 => h n (by simp [hn2]))]
    rfl

theorem filterLoop_nodup (pm : List (Key × Key)) (es : List Key) (acc : List Key)
    (h : acc.Nodup) : (toInternalFilterLoop pm es acc).Nodup := by
  induction es generalizing acc with
  | nil => exact h
  | cons e es ih =>
    cases h1 : alookup pm e with
    | none =>
      simp only [toInternalFilterLoop, h1]
      exact ih acc h
    | some n =>
      simp only [toInternalFilterLoop, h1]
      by_cases h2 : n ∈ acc
      · rw [if_pos h2]
        exact ih acc h
      · rw [if_neg h2]
        refine ih _ ?_
        simp [List.nodup_append, h, h2]

theorem filterLoop_mem (pm : List (Key × Key)) (es : List Key) (acc : List Key) (n : Key) :
    n ∈ toInternalFilterLoop pm es acc ↔ n ∈ acc ∨ ∃ e ∈ es, alookup pm e = some n := by
  induction es generalizing acc with
  | nil => simp [toInternalFilterLoop]
  | cons e es ih =>
    cases h1 : alookup pm e with
    | none =>
      simp only [toInternalFilterLoop, h1]
      rw [ih]
      constructor
      · rintro (hc | ⟨x, hx, hxx⟩)
        · exact Or.inl hc
        · exact Or.inr ⟨x, by simp [hx], hxx⟩
      · rintro (hc | ⟨x, hx, hxx⟩)
        · exact Or.inl hc
        · rcases List.mem_cons.mp hx with rfl | hx2
          · rw [h1] at hxx
            exact Option.noConfusion hxx
          · exact Or.inr ⟨x, hx2, hxx⟩
    | some n' =>
      simp only [toInternalFilterLoop, h1]
      have hacc : ∀ acc', (n ∈ acc' ↔ n ∈ acc ∨ n = n') →
          (n ∈ toInternalFilterLoop pm es acc' ↔
            n ∈ acc ∨ ∃ e2 ∈ e :: es, alookup pm e2 = some n) := by
        intro acc' hmem
        rw [ih, hmem]
        constructor
        · rintro ((hc | rfl) | ⟨x, hx, hxx⟩)
          · exact Or.inl hc
          · exact Or.inr ⟨e, by simp, by rw [h1]⟩
          · exact Or.inr ⟨x, by simp [hx], hxx⟩
        · rintro (hc | ⟨x, hx, hxx⟩)
          · exact Or.inl (Or.inl hc)
          · rcases List.mem_cons.mp hx with rfl | hx2
            · rw [h1] at hxx
              exact Or.inl (Or.inr (Option.some.inj hxx).symm)
            · exact Or.inr ⟨x, hx2, hxx⟩
      by_cases h2 : n' ∈ acc
      · rw [if_pos h2]
        refine hacc acc ?_
        constructor
        · exact Or.inl
        · rintro (hc | rfl)
          · exact hc
          · exact h2
      · rw [if_neg h2]
        refine hacc (acc ++ [n']) ?_
        simp

/-- Claim C10: for every string containing at least one `@`, `scope`
returns the substring after the first occurrence of `@` (so it does not
raise for strings with several `@` and the suffix may contain `@`), and
`scope` raises `ValueError` exactly when the string contains no `@`. -/
theorem claim_C10 (s : Key) :
    ('@' ∈ s → scope s = .ok (afterFirst '@' s)) ∧
    (scope s = .error .valueError ↔ '@' ∉ s) := by
  refine ⟨?_, ?_, ?_⟩
  · intro h
    rw [scope, if_neg (not_not_intro h), afterFirst, pypartition_after]
  · intro h hmem
    rw [scope, if_neg (not_not_intro hmem)] at h
    exact Except.noConfusion h
  · intro h
    rw [scope, if_pos h]

/-- Witness for C10: a string with two occurrences of the separator. -/
theorem claim_C10_witness :
    ('@' ∈ "a@b@c".toList) ∧
    scope "a@b@c".toList = .ok (afterFirst '@' "a@b@c".toList) :=
  ⟨by decide, (claim_C10 "a@b@c".toList).1 (by decide)⟩

/-- Claim C2 counterexample: nested-path get with path "a.b" on the
record mapping "a" to the list ["x"] raises `AttributeError` (the
intermediate value is a list, and `.get` is not defined on lists), so
the traversal is not exception-free and a non-mapping intermediate value
is not treated as a missing signal. -/
theorem claim_C2_counterexample :
    get_nested_attribute_value kAB [(kA, .list [.str kX])] = .error .attributeError := rfl

/-- Claim C2 (amended): nested-path get traverses segment by segment and
returns a missing signal (not an error) as soon as any segment's lookup
yields `None`; it raises no exception whenever every intermediate value
it meets is a mapping; but when an intermediate value is a non-mapping
(such as a list or a string) with segments remaining, it raises
`AttributeError` instead of signalling missing. -/
theorem claim_C2 :
    (∀ (nested_key : Key) (data : EDict),
      MapsAlong (pysplit '.' nested_key) (PyValue.dict data) →
      ∃ r, get_nested_attribute_value nested_key data = .ok r) ∧
    (∀ (k : Key) (ks : List Key) (es : List (Key × PyValue)),
      dictGet es k = PyValue.none →
      getNestedLoop (k :: ks) (.dict es) = .ok Option.none) := by
  constructor
  · intro nk data h
    exact mapsAlong_safe _ _ h
  · intro k ks es h
    simp [getNestedLoop, h]

/-- Witness for C2: a concrete traversal that meets only mappings. -/
theorem claim_C2_witness :
    ∃ r, get_nested_attribute_value kA [(kA, .list [.str kX])] = .ok r := by
  apply claim_C2.1
  have hsplit : pysplit '.' kA = [kA] := rfl
  rw [hsplit]
  have hget : dictGet [(kA, PyValue.list [PyValue.str kX])] kA =
      PyValue.list [PyValue.str kX] := rfl
  refine MapsAlong.step kA [] _ ?_ ?_
  · rw [hget]
    exact fun h => PyValue.noConfusion h
  · rw [hget]
    exact MapsAlong.nil _

/-- Claim C4 counterexample: a present empty-string scalar is not
appended — the collation of candidate "x" against the record mapping
"x" to the empty string yields no values (the `elif attr_val:`
truthiness test drops falsy scalars), while the claim requires the empty
string to be appended. -/
theorem claim_C4_counterexample :
    collate_attribute_values_by_priority_order [kX] [(kX, .str [])] = .ok [] ∧
    ([] : List PyValue) ≠ [PyValue.str []] :=
  ⟨rfl, fun h => List.noConfusion h⟩

/-- Claim C4 (amended): collation resolves each candidate by nested-path
traversal and concatenates the contributions in candidate order: a list
value is spread in place, a truthy scalar is appended, and a missing
value or a falsy scalar (such as the empty string) contributes
nothing.  Stated under the hypothesis that every candidate resolves
without raising. -/
theorem claim_C4 (names : List Key) (data : EDict)
    (h : ∀ n ∈ names, ∃ r, get_nested_attribute_value n data = .ok r) :
    collate_attribute_values_by_priority_order names data =
      .ok ((names.map (contributionOf data)).flatten) := by
  induction names with
  | nil => rfl
  | cons n ns ih =>
    obtain ⟨r, hr⟩ := h n (by simp)
    have hih := ih (fun n hn => h n (by simp [hn]))
    cases r with
    | none =>
      simp [collate_attribute_values_by_priority_order, hr, hih, contributionOf]
    | some v =>
      cases v <;>
        simp [collate_attribute_values_by_priority_order, hr, hih, contributionOf]

/-- Witness for C4: a record with a list value and a truthy scalar. -/
theorem claim_C4_witness :
    collate_attribute_values_by_priority_order [kX, kY]
        [(kX, .list [.str kV]), (kY, .str kV)] =
      .ok (([kX, kY].map (contributionOf [(kX, .list [.str kV]), (kY, .str kV)])).flatten) := by
  apply claim_C4
  intro n hn
  rcases List.mem_cons.mp hn with rfl | hn2
  · exact ⟨some (.list [.str kV]), rfl⟩
  · rcases List.mem_cons.mp hn2 with rfl | hn3
    · exact ⟨some (.str kV), rfl⟩
    · exact absurd hn3 (List.not_mem_nil n)

/-- Claim C9: `to_internal_filter` on a profile absent from the inverse
table returns an empty sequence without raising; in general its result
is duplicate-free and contains exactly the internal names that some
supplied external name resolves to under that profile. -/
theorem claim_C9 (tables : List (Key × List (Key × Key))) (p : Key) (exts : List Key) :
    ((to_internal_filter tables p exts).1).Nodup ∧
    (∀ n, n ∈ (to_internal_filter tables p exts).1 ↔
      ∃ e ∈ exts, resolveExternal tables p e = some n) ∧
    (alookup tables p = Option.none → (to_internal_filter tables p exts).1 = []) := by
  cases h1 : alookup tables p with
  | none =>
    simp only [to_internal_filter, h1]
    refine ⟨List.nodup_nil, ?_, by trivial⟩
    intro n
    simp [resolveExternal, h1]
  | some pm =>
    simp only [to_internal_filter, h1]
    refine ⟨filterLoop_nodup pm exts [] List.nodup_nil, ?_, ?_⟩
    · intro n
      rw [filterLoop_mem]
      simp [resolveExternal, h1]
    · intro h2
      exact Option.noConfusion h2

/-- Witness for C9: the unknown-profile case on concrete input. -/
theorem claim_C9_witness : (to_internal_filter [] kP [kX]).1 = [] :=
  (claim_C9 [] kP [kX]).2.2 rfl

/-- Claim C3 counterexample: calling `to_internal_filter` with a profile
absent from the inverse table adds an entry for that profile (the
`defaultdict(dict)` inserts an empty sub-dict), so the set of entries of
the lookup table does change. -/
theorem claim_C3_counterexample :
    (to_internal_filter [] kP []).2 = [(kP, [])] ∧
    ([] : List (Key × List (Key × Key))) ≠ [(kP, [])] :=
  ⟨rfl, fun h => List.noConfusion h⟩

/-- Claim C3 (amended): no public operation changes any resolved mapping
of the inverse table — every `to_internal[profile][external]` resolution
is unchanged by `to_internal_filter` with arbitrary arguments (and
`to_internal`/`from_internal` read the tables without writing, so they
cannot change them) — but `to_internal_filter` on an unknown profile
does insert an empty sub-table entry for that profile. -/
theorem claim_C3 (tables : List (Key × List (Key × Key))) (p : Key) (exts : List Key)
    (p' e' : Key) :
    resolveExternal ((to_internal_filter tables p exts).2) p' e' =
      resolveExternal tables p' e' := by
  cases h1 : alookup tables p with
  | some pm => simp [to_internal_filter, h1]
  | none =>
    simp only [to_internal_filter, h1]
    by_cases h2 : p = p'
    · subst h2
      simp [resolveExternal, alookup_dictInsert_self, h1, alookup]
    · simp [resolveExternal, alookup_dictInsert_ne _ _ _ _ h2]

/-- Claim C6: with a configuration mapping internal attribute "street"
to the dotted external name "address.street_address" for a profile,
`to_internal` of the nested external record produces the flat internal
record, and `from_internal` of the flat internal record reconstructs the
nested external record (segments after the first wrapped inward, keyed
under the first segment). -/
theorem claim_C6 (render : RenderOracle) (p : Key) :
    to_internal render (cfgNested p) p
        [(kAddress, .dict [(kStreetAddress, .list [.str kMainSt])])] =
      .ok [(kStreet, [.str kMainSt])] ∧
    from_internal (cfgNested p) p [(kStreet, [.str kMainSt])] =
      .ok [(kAddress, .dict [(kStreetAddress, .list [.str kMainSt])])] := by
  have halo : alookup [(p, [kAddressStreet])] p = some [kAddressStreet] := by
    simp [alookup]
  constructor
  · have hcol : collate_attribute_values_by_priority_order [kAddressStreet]
        [(kAddress, PyValue.dict [(kStreetAddress, PyValue.list [PyValue.str kMainSt])])] =
        .ok [PyValue.str kMainSt] := rfl
    simp only [to_internal, cfgNested, toInternalLoop, halo, hcol]
    rfl
  · have hattr : alookup (cfgNested p).attributes kStreet = some [(p, [kAddressStreet])] := rfl
    simp only [from_internal, fromInternalLoop, hattr, halo]
    rfl

/-- Claim C1 counterexample: a template whose rendering raises
`ValueError` (the outcome of applying `scope` to a string without `@`)
makes `to_internal` itself raise — the failure escapes the
template-evaluation boundary, because the handler catches only
`NameError` and `TypeError`. -/
theorem claim_C1_counterexample :
    to_internal renderScopeFailure cfgScopeTemplate kP [] = .error .valueError := rfl

/-- Claim C1 (amended): a template rendering failure that raises
`NameError` (undefined variable) or `TypeError` (including a non-string
render result) is caught inside the template-evaluation boundary and
treated as zero produced values, and an entry all of whose templates so
fail leaves the internal record — including all unrelated attributes —
exactly as it was; but a rendering failure raising `ValueError`
(scope extraction on a string without `@`) is not caught and propagates
to the caller of `to_internal`. -/
theorem claim_C1 :
    (∀ (render : RenderOracle) (t : Key) (d : IDict),
      (render t d = .error .nameError ∨ render t d = .error .typeError) →
      render_attribute_template render t d = .ok []) ∧
    (∀ (render : RenderOracle) (t : Key) (d : IDict) (v : PyValue),
      render t d = .ok v → (∀ s, v ≠ PyValue.str s) →
      render_attribute_template render t d = .ok []) ∧
    (∀ (render : RenderOracle) (p A : Key) (m : List (Key × List Key))
      (rest : List (Key × List (Key × List Key))) (d : IDict) (names : List Key),
      alookup m p = some names →
      (∀ t ∈ names.filter (fun t => '$' ∈ t),
        render_attribute_template render t d = .ok []) →
      handleTemplatesLoop render p ((A, m) :: rest) d =
        handleTemplatesLoop render p rest d) := by
  refine ⟨?_, ?_, ?_⟩
  · rintro render t d (h | h) <;> simp [render_attribute_template, h]
  · intro render t d v h hv
    cases v with
    | str s => exact absurd rfl (hv s)
    | list vs => simp [render_attribute_template, h]
    | dict es => simp [render_attribute_template, h]
    | none => simp [render_attribute_template, h]
  · intro render p A m rest d names hm hall
    have hmapM := mapM_renders_nil render (names.filter (fun t => '$' ∈ t)) d hall
    cases h4 : alookup d A with
    | none =>
      simp only [handleTemplatesLoop, hm, hmapM, flatten_map_nil, List.isEmpty_nil, h4, if_true]
    | some vs =>
      simp only [handleTemplatesLoop, hm, hmapM, flatten_map_nil, List.isEmpty_nil, h4, if_true]
      by_cases h5 : vs.isEmpty
      · rw [if_pos h5]
      · rw [if_neg h5, dictInsert_self_eq d A vs h4]

/-- Witness for C1: a concrete `NameError`-failing rendering yields zero
values and leaves the record unchanged. -/
theorem claim_C1_witness :
    render_attribute_template renderUndefined kScopeTemplate [(kB, [.str kV])] = .ok [] ∧
    handleTemplatesLoop renderUndefined kP [(kA, [(kP, [kScopeTemplate])])] [(kB, [.str kV])] =
      handleTemplatesLoop renderUndefined kP [] [(kB, [.str kV])] := by
  constructor
  · exact claim_C1.1 renderUndefined kScopeTemplate [(kB, [.str kV])] (Or.inl rfl)
  · refine claim_C1.2.2 renderUndefined kP kA [(kP, [kScopeTemplate])] []
      [(kB, [.str kV])] [kScopeTemplate] rfl ?_
    intro t ht
    have : t = kScopeTemplate := by
      have hf : List.filter (fun t => decide ('$' ∈ t)) [kScopeTemplate] = [kScopeTemplate] := rfl
      rw [hf] at ht
      simpa using ht
    rw [this]
    exact claim_C1.1 renderUndefined kScopeTemplate [(kB, [.str kV])] (Or.inl rfl)

/-- Claim C8: for a template-declared internal attribute `A` with a
mapping for the active profile (its entry sitting between `pre` and
`post` in the template table, neither of which declares `A` again), with
`d1` the record when `A`'s entry is processed and `tss` the rendered
value sequences of its templates: if the concatenation of all rendered
sequences is empty, the value present for `A` after the plain mapping
pass (in `d0`) is preserved unchanged in the final record — in
particular the key is absent from the result when it was absent before —
and if the concatenation is non-empty it replaces the plain value
entirely. -/
theorem claim_C8 (render : RenderOracle) (cfg : Config) (P A : Key)
    (m : List (Key × List Key)) (pre post : List (Key × List (Key × List Key)))
    (names : List Key) (d0 d1 dfin : IDict) (tss : List (List PyValue))
    (htm : cfg.template_attributes = some (pre ++ (A, m) :: post))
    (hpreA : ∀ pr ∈ pre, pr.1 ≠ A)
    (hpostA : ∀ pr ∈ post, pr.1 ≠ A)
    (hm : alookup m P = some names)
    (hpre : handleTemplatesLoop render P pre d0 = .ok d1)
    (hrend : (names.filter (fun t => '$' ∈ t)).mapM
        (fun t => render_attribute_template render t d1) = .ok tss)
    (hall : handle_template_attributes render cfg P d0 = .ok dfin) :
    (tss.flatten = [] → alookup dfin A = alookup d0 A) ∧
    (tss.flatten ≠ [] → alookup dfin A = some tss.flatten) := by
  have hpre' : ∀ pr ∈ pre, pr.1 = A → alookup pr.2 P = Option.none :=
    fun pr hpr hEq => absurd hEq (hpreA pr hpr)
  have hpost' : ∀ pr ∈ post, pr.1 = A → alookup pr.2 P = Option.none :=
    fun pr hpr hEq => absurd hEq (hpostA pr hpr)
  have hd1A : alookup d1 A = alookup d0 A :=
    handleTemplatesLoop_preserved render P pre d0 d1 A hpre hpre'
  simp only [handle_template_attributes, htm] at hall
  rw [handleTemplatesLoop_append, hpre] at hall
  simp only [handleTemplatesLoop, hm, hrend] at hall
  have hsame : ∀ d2, handleTemplatesLoop render P post d2 = .ok dfin → d2 = d1 →
      alookup dfin A = alookup d0 A := by
    intro d2 hrun hEq
    rw [hEq] at hrun
    rw [handleTemplatesLoop_preserved render P post d1 dfin A hrun hpost']
    exact hd1A
  by_cases hfl : tss.flatten.isEmpty
  · simp only [hfl, if_true] at hall
    have hflnil : tss.flatten = [] := List.isEmpty_iff.mp hfl
    refine ⟨fun _ => ?_, fun hne => absurd hflnil hne⟩
    cases h4 : alookup d1 A with
    | none =>
      simp only [h4] at hall
      exact hsame d1 hall rfl
    | some vs =>
      simp only [h4] at hall
      by_cases h5 : vs.isEmpty
      · rw [if_pos h5] at hall
        exact hsame d1 hall rfl
      · rw [if_neg h5] at hall
        rw [dictInsert_self_eq d1 A vs h4] at hall
        exact hsame d1 hall rfl
  · have hfl' : tss.flatten.isEmpty = false := by
      cases h : tss.flatten.isEmpty with
      | false => rfl
      | true => exact absurd h hfl
    have hflnil : tss.flatten ≠ [] := fun h => hfl (by simp [h])
    simp only [hfl', Bool.false_eq_true, if_false] at hall
    refine ⟨fun h => absurd h hflnil, fun _ => ?_⟩
    rw [handleTemplatesLoop_preserved render P post _ dfin A hall hpost']
    exact alookup_dictInsert_self d1 A tss.flatten

/-- Witness for C8: a constant template rendering the string "z"
replaces the plain value of `a` and leaves `b` alone. -/
theorem claim_C8_witness :
    handle_template_attributes renderConstZ cfgScopeTemplate kP [(kB, [.str kV])] =
      .ok [(kB, [.str kV]), (kA, [.str ['z']])] ∧
    alookup [(kB, [PyValue.str kV]), (kA, [PyValue.str ['z']])] kA =
      some ([[PyValue.str ['z']]] : List (List PyValue)).flatten := by
  refine ⟨rfl, ?_⟩
  refine (claim_C8 renderConstZ cfgScopeTemplate kP kA [(kP, [kScopeTemplate])] [] []
    [kScopeTemplate] [(kB, [.str kV])] [(kB, [.str kV])]
    [(kB, [.str kV]), (kA, [.str ['z']])] [[PyValue.str ['z']]]
    rfl (fun pr hpr => absurd hpr (List.not_mem_nil pr))
    (fun pr hpr => absurd hpr (List.not_mem_nil pr))
    rfl rfl rfl rfl).2 ?_
  exact List.cons_ne_nil _ _

/-- Claim C7: if internal attribute `A` maps to the candidate list
`[X, Y]` for profile `P` and the external record supplies (non-empty)
value lists for both `X` and `Y`, then the internal record produced by
`to_internal` maps `A` to the values of `X` followed by the values of
`Y`, concatenated in that order.  (Key uniqueness of the configuration
dict and absence of a template entry re-targeting `A` under `P` are the
standing assumptions of the data model; the result is read off the
successful run.) -/
theorem claim_C7 (render : RenderOracle) (cfg : Config) (P A X Y : Key)
    (m : List (Key × List Key)) (record : EDict) (vx vy : List PyValue) (dres : IDict)
    (hnodup : (cfg.attributes.map Prod.fst).Nodup)
    (hA : alookup cfg.attributes A = some m)
    (hm : alookup m P = some [X, Y])
    (hX : get_nested_attribute_value X record = .ok (some (.list vx)))
    (hY : get_nested_attribute_value Y record = .ok (some (.list vy)))
    (hvx : vx ≠ []) (hvy : vy ≠ [])
    (htmplA : ∀ tm, cfg.template_attributes = some tm → ∀ pr ∈ tm, pr.1 = A →
      alookup pr.2 P = Option.none)
    (hres : to_internal render cfg P record = .ok dres) :
    alookup dres A = some (vx ++ vy) := by
  have hcol : collate_attribute_values_by_priority_order [X, Y] record = .ok (vx ++ vy) := by
    simp only [collate_attribute_values_by_priority_order, hX, hY]
    simp
  obtain ⟨l1, l2, hsp, hl1⟩ := alookup_decomp hA
  have hl2 : ∀ pr ∈ l2, pr.1 ≠ A := nodup_keys_right l1 l2 A m (hsp ▸ hnodup)
  simp only [to_internal] at hres
  cases hplain : toInternalLoop P record cfg.attributes [] with
  | error e =>
    rw [hplain] at hres
    exact Except.noConfusion hres
  | ok d0 =>
    rw [hplain] at hres
    simp only at hres
    rw [hsp, toInternalLoop_append] at hplain
    cases h1 : toInternalLoop P record l1 [] with
    | error e =>
      rw [h1] at hplain
      exact Except.noConfusion hplain
    | ok acc1 =>
      rw [h1] at hplain
      simp only [toInternalLoop, hm, hcol] at hplain
      have hne : (vx ++ vy).isEmpty = false := by
        cases hv : vx ++ vy with
        | nil => exact absurd (List.append_eq_nil.mp hv).1 hvx
        | cons a l => rfl
      rw [hne] at hplain
      simp only [Bool.false_eq_true, if_false] at hplain
      have hd0A : alookup d0 A = some (vx ++ vy) := by
        rw [toInternalLoop_lookup_preserved P record l2 _ d0 A hplain hl2]
        exact alookup_dictInsert_self acc1 A (vx ++ vy)
      cases htm : cfg.template_attributes with
      | none =>
        simp only [handle_template_attributes, htm] at hres
        obtain rfl := Except.ok.inj hres
        exact hd0A
      | some tm =>
        simp only [handle_template_attributes, htm] at hres
        rw [handleTemplatesLoop_preserved render P tm d0 dres A hres (htmplA tm htm)]
        exact hd0A

/-- Witness for C7: both candidates supply one value each. -/
theorem claim_C7_witness :
    to_internal renderUndefined cfgPriority kP
        [(kX, .list [.str kV]), (kY, .list [.str kB])] =
      .ok [(kA, [.str kV, .str kB])] ∧
    alookup [(kA, [PyValue.str kV, PyValue.str kB])] kA =
      some ([PyValue.str kV] ++ [PyValue.str kB]) := by
  refine ⟨rfl, ?_⟩
  exact claim_C7 renderUndefined cfgPriority kP kA kX kY [(kP, [kX, kY])]
    [(kX, .list [.str kV]), (kY, .list [.str kB])]
    [PyValue.str kV] [PyValue.str kB] [(kA, [PyValue.str kV, PyValue.str kB])]
    (by simp [cfgPriority]) rfl rfl rfl rfl
    (List.cons_ne_nil _ _) (List.cons_ne_nil _ _)
    (fun tm h => Option.noConfusion h) rfl

/-- Claim C5 counterexample: the configuration lists `x` as the single
candidate of `a` for `p`, `x` is separator-free, the inverse table maps
`x` back to `a`, and there are no template attributes — yet the round
trip of {a: [v]} yields {b: [v], a: [v]}, because the internal attribute
`b` also lists `x` as a candidate (its inverse-table entry was merely
overwritten by `a`'s). -/
theorem claim_C5_counterexample :
    alookup cfgShared.attributes kA = some [(kP, [kX])] ∧
    alookup [(kP, [kX])] kP = some [kX] ∧
    '.' ∉ kX ∧
    resolveExternal (buildToInternal cfgShared.attributes) kP kX = some kA ∧
    cfgShared.template_attributes = Option.none ∧
    (from_internal cfgShared kP [(kA, [PyValue.str kV])]).bind
        (fun e => to_internal renderUndefined cfgShared kP e) =
      .ok [(kB, [PyValue.str kV]), (kA, [PyValue.str kV])] ∧
    Except.ok ([(kB, [PyValue.str kV]), (kA, [PyValue.str kV])] : IDict) ≠
      (.ok [(kA, [PyValue.str kV])] : Except PyError IDict) := by
  refine ⟨rfl, rfl, by decide, rfl, rfl, rfl, ?_⟩
  intro h
  have h2 := congrArg List.length (Except.ok.inj h)
  simp at h2

/-- Claim C5 (amended): the round trip reconstructs exactly {A: [v]}
when, additionally, no other internal attribute has a candidate for `P`
whose first dot-segment is `X` (otherwise that attribute also picks the
value up — or, for a longer dotted candidate, the traversal raises) and
no template attribute has a mapping for `P` (otherwise it can add or
raise).  Key uniqueness of the configuration dict is the standing
Python-dict assumption. -/
theorem claim_C5 (render : RenderOracle) (cfg : Config) (P A X : Key) (v : PyValue)
    (m : List (Key × List Key))
    (hnodup : (cfg.attributes.map Prod.fst).Nodup)
    (hA : alookup cfg.attributes A = some m)
    (hm : alookup m P = some [X])
    (hsep : '.' ∉ X)
    (hinv : resolveExternal (buildToInternal cfg.attributes) P X = some A)
    (hoth : ∀ pr ∈ cfg.attributes, pr.1 ≠ A → ∀ names, alookup pr.2 P = some names →
      ∀ n ∈ names, (pysplit '.' n).head? ≠ some X)
    (htmpl : ∀ tm, cfg.template_attributes = some tm → ∀ pr ∈ tm,
      alookup pr.2 P = Option.none) :
    (from_internal cfg P [(A, [v])]).bind (fun e => to_internal render cfg P e) =
      .ok [(A, [v])] := by
  have hfrom : from_internal cfg P [(A, [v])] = .ok [(X, PyValue.list [v])] := by
    simp only [from_internal, fromInternalLoop, hA, hm]
    rw [if_neg hsep]
    rfl
  rw [hfrom]
  show to_internal render cfg P [(X, PyValue.list [v])] = .ok [(A, [v])]
  obtain ⟨l1, l2, hsp, hl1⟩ := alookup_decomp hA
  have hl2 : ∀ pr ∈ l2, pr.1 ≠ A := nodup_keys_right l1 l2 A m (hsp ▸ hnodup)
  have hcolA : collate_attribute_values_by_priority_order [X] [(X, PyValue.list [v])] =
      .ok [v] := by
    simp [collate_attribute_values_by_priority_order, get_nested_attribute_value,
      pysplit_no_sep '.' X hsep, getNestedLoop, dictGet]
  have hskip1 : ∀ pr ∈ l1, ∀ names, alookup pr.2 P = some names →
      collate_attribute_values_by_priority_order names [(X, PyValue.list [v])] = .ok [] := by
    intro pr hpr names hlook
    refine collate_single_key_miss names X (PyValue.list [v]) ?_
    exact hoth pr (by rw [hsp]; exact List.mem_append_left _ hpr) (hl1 pr hpr) names hlook
  have hskip2 : ∀ pr ∈ l2, ∀ names, alookup pr.2 P = some names →
      collate_attribute_values_by_priority_order names [(X, PyValue.list [v])] = .ok [] := by
    intro pr hpr names hlook
    refine collate_single_key_miss names X (PyValue.list [v]) ?_
    refine hoth pr ?_ (hl2 pr hpr) names hlook
    rw [hsp]
    exact List.mem_append_right _ (List.mem_cons_of_mem _ hpr)
  have hloop : toInternalLoop P [(X, PyValue.list [v])] cfg.attributes [] = .ok [(A, [v])] := by
    rw [hsp, toInternalLoop_append, toInternalLoop_skip P _ l1 [] hskip1]
    simp only [toInternalLoop, hm, hcolA, List.isEmpty_cons, Bool.false_eq_true, if_false]
    have : dictInsert ([] : IDict) A [v] = [(A, [v])] := rfl
    rw [this]
    exact toInternalLoop_skip P _ l2 [(A, [v])] hskip2
  simp only [to_internal, hloop]
  cases htm : cfg.template_attributes with
  | none => simp [handle_template_attributes, htm]
  | some tm =>
    simp only [handle_template_attributes, htm]
    exact handleTemplatesLoop_skip render P tm [(A, [v])] (htmpl tm htm)

/-- Witness for C5: a single aligned attribute round-trips. -/
theorem claim_C5_witness :
    (from_internal cfgAligned kP [(kA, [PyValue.str kV])]).bind
        (fun e => to_internal renderUndefined cfgAligned kP e) =
      .ok [(kA, [PyValue.str kV])] := by
  refine claim_C5 renderUndefined cfgAligned kP kA kX (PyValue.str kV) [(kP, [kX])]
    (by simp [cfgAligned]) rfl rfl (by decide) rfl ?_ (fun tm h => Option.noConfusion h)
  intro pr hpr hne
  rw [show cfgAligned.attributes = [(kA, [(kP, [kX])])] from rfl] at hpr
  rw [List.mem_singleton] at hpr
  rw [hpr] at hne
  exact absurd rfl hne

end AttributeMapping
